import Mathlib

/-!
Shallow embedding of the task-api repository (Go) in Lean 4.

The embedding covers the parts of the repository the claims speak about:

* `internal/model` (file `src/unnamed/part_002`): the `Task` record, the
  `TaskStatus` enumeration, the package-level atomic id counter with
  `NewTask` / `generateTaskID`, and the methods `Task.Duration` and
  `Task.UpdateStatus`.
* `internal/repository/task.go`: `InMemoryTaskRepository` with its
  `tasks` map, `nextID` counter and the five CRUD operations.
* `internal/service/task.go`: id validation in `GetTask` / `DeleteTask`
  (via `strconv.ParseInt(id, 10, 64)`), `CreateTask`'s
  insert-then-enqueue protocol, and the worker loop of `startWorkers`
  as a small-step transition relation.

Conventions: Go `time.Time` values are modelled as `Int` (milliseconds
on an absolute axis); the `time.Now()` calls become explicit `now`
arguments.  The Go map `map[string]*Task` is modelled as an association
list with replace-on-insert.  The in-place mutation of the repository
becomes explicit state passing: every mutating operation returns the
repository state after the call next to its Go return values.  The
`int64` repository counter wraps at `2 ^ 63` exactly as Go's defined
two's-complement overflow does (`wrap64`), and the `uint64` model
counter wraps at `2 ^ 64`.
-/

namespace TaskAPI

/-- Decimal digit characters and values, used to model Go's
`strconv.FormatInt` / `strconv.FormatUint` / `strconv.ParseInt`. -/
def decChar (d : Nat) : Char := Char.ofNat (48 + d)

/-- Little-endian decimal digits of `n`, with explicit structural fuel
(the fuel is always instantiated with `n` itself, which suffices). -/
def natToRevDigitsFuel : Nat → Nat → List Nat
  | 0, _ => []
  | _ + 1, 0 => []
  | fuel + 1, n + 1 => ((n + 1) % 10) :: natToRevDigitsFuel fuel ((n + 1) / 10)

/-- Little-endian decimal digits of `n` (`[]` for `0`). -/
def natToRevDigits (n : Nat) : List Nat := natToRevDigitsFuel n n

/-- Decimal rendering of a natural number, as produced by Go's
`strconv.FormatUint(n, 10)`. -/
def natStr : Nat → String
  | 0 => "0"
  | n + 1 => String.mk (((natToRevDigits (n + 1)).reverse).map decChar)

/-- Decimal rendering of an `int64` value, as produced by Go's
`strconv.FormatInt(i, 10)`. -/
def formatInt (i : Int) : String :=
  if i < 0 then "-" ++ natStr i.natAbs else natStr i.toNat

/-- Numeric value of a decimal digit character, `none` when the
character is not `'0'..'9'`. -/
def digitVal (c : Char) : Option Nat :=
  if '0' ≤ c ∧ c ≤ '9' then some (c.toNat - 48) else none

/-- Left-to-right accumulation of decimal digits, failing on the first
non-digit character (the digit loop of Go's `strconv.ParseInt`). -/
def parseDigitsAux : Nat → List Char → Option Nat
  | acc, [] => some acc
  | acc, c :: cs =>
    match digitVal c with
    | none => none
    | some d => parseDigitsAux (acc * 10 + d) cs

/-- All-digits parse of a nonempty character list. -/
def parseDigits : List Char → Option Nat
  | [] => none
  | c :: cs => parseDigitsAux 0 (c :: cs)

/-- Model of Go's `strconv.ParseInt(s, 10, 64)`: an optional `+`/`-`
sign followed by at least one decimal digit, with the value required to
fit in `int64`; `none` models a non-nil error. -/
def parseInt64 (s : String) : Option Int :=
  match s.data with
  | [] => none
  | c :: cs =>
    if c = '+' then
      (parseDigits cs).bind (fun n =>
        if n ≤ 2 ^ 63 - 1 then some (n : Int) else none)
    else if c = '-' then
      (parseDigits cs).bind (fun n =>
        if n ≤ 2 ^ 63 then some (-(n : Int)) else none)
    else
      (parseDigits (c :: cs)).bind (fun n =>
        if n ≤ 2 ^ 63 - 1 then some (n : Int) else none)

/-- Two's-complement wrap-around of Go `int64` arithmetic. -/
def wrap64 (x : Int) : Int := (x + 2 ^ 63) % 2 ^ 64 - 2 ^ 63

/-- `model.TaskStatus`: the four status constants of the model package. -/
inductive TaskStatus
  | pending
  | processing
  | completed
  | failed
deriving DecidableEq

/-- `model.Task`.  `time.Time` fields are `Int` milliseconds;
`DurationStr` caches the difference `endTime - startedAt` whose Go
string rendering (`time.Duration.String()`) is not itself modelled —
no claim inspects the rendering, only whether and from which endpoints
it is computed. -/
structure Task where
  id : String
  title : String
  description : String
  status : TaskStatus
  createdAt : Int
  startedAt : Option Int := none
  completedAt : Option Int := none
  durationStr : Option Int := none
  result : String := ""
  error : String := ""
deriving DecidableEq

/-- `model.generateTaskID`: `atomic.AddUint64(&taskCounter, 1)` followed
by `strconv.FormatUint`; the package-level counter is passed explicitly.
Returns the new counter value next to the rendered id. -/
def generateTaskID (counter : Nat) : Nat × String :=
  let c := (counter + 1) % 2 ^ 64
  (c, natStr c)

/-- `model.NewTask`: fresh task with the generated id, `Pending` status
and `CreatedAt = now`.  Returns the task next to the new counter. -/
def NewTask (title description : String) (counter : Nat) (now : Int) :
    Task × Nat :=
  let g := generateTaskID counter
  ({ id := g.2
     title := title
     description := description
     status := TaskStatus.pending
     createdAt := now }, g.1)

/-- `model.Task.Duration`: milliseconds from `StartedAt` to
`CompletedAt` when set, otherwise to `now`; `0` when `StartedAt` is
absent.  (Go returns `float64` of the millisecond count; the count is
an integer, modelled directly.) -/
def Task.duration (t : Task) (now : Int) : Int :=
  match t.startedAt with
  | none => 0
  | some s => (t.completedAt.getD now) - s

/-- `model.Task.UpdateStatus`: sets the status, stamps `StartedAt` on
`Processing` and `CompletedAt` on `Completed`/`Failed` (both
unconditionally, from `now`), then recomputes the cached duration from
`StartedAt` to `CompletedAt`-or-`now` whenever `StartedAt` is set. -/
def Task.updateStatus (t : Task) (status : TaskStatus) (now : Int) : Task :=
  let t1 : Task := { t with status := status }
  let t2 : Task :=
    match status with
    | TaskStatus.processing => { t1 with startedAt := some now }
    | TaskStatus.completed => { t1 with completedAt := some now }
    | TaskStatus.failed => { t1 with completedAt := some now }
    | TaskStatus.pending => t1
  match t2.startedAt with
  | none => t2
  | some s => { t2 with durationStr := some ((t2.completedAt.getD now) - s) }

/-- `repository.ErrTaskNotFound` is the only repository error value. -/
inductive RepoError
  | taskNotFound
deriving DecidableEq

/-- Replace-on-insert into the association list modelling the Go map
`tasks map[string]*model.Task`. -/
def mapPut (m : List (String × Task)) (k : String) (v : Task) :
    List (String × Task) :=
  (k, v) :: m.filter (fun p => !(p.1 == k))

/-- Key removal, modelling Go's `delete(r.tasks, id)`. -/
def mapErase (m : List (String × Task)) (k : String) :
    List (String × Task) :=
  m.filter (fun p => !(p.1 == k))

/-- `repository.InMemoryTaskRepository`: the `tasks` map and the `int64`
`nextID` counter. -/
structure Store where
  tasks : List (String × Task)
  nextID : Int
deriving DecidableEq

/-- `repository.NewTaskRepository`: empty map, `nextID = 1`. -/
def initStore : Store := { tasks := [], nextID := 1 }

/-- `InMemoryTaskRepository.getNextID`: returns the rendered current
counter and increments it (with Go's `int64` wrap-around). -/
def Store.getNextID (st : Store) : Store × String :=
  ({ st with nextID := wrap64 (st.nextID + 1) }, formatInt st.nextID)

/-- `InMemoryTaskRepository.CreateTask`: overwrites `task.ID` with the
store's next id, inserts under that id, returns the stored task.  Never
fails. -/
def Store.createTask (st : Store) (task : Task) : Store × Task :=
  let g := st.getNextID
  let stored : Task := { task with id := g.2 }
  ({ g.1 with tasks := mapPut g.1.tasks g.2 stored }, stored)

/-- `InMemoryTaskRepository.GetTask` (read-only). -/
def Store.getTask (st : Store) (id : String) : Except RepoError Task :=
  match st.tasks.lookup id with
  | none => Except.error RepoError.taskNotFound
  | some t => Except.ok t

/-- `InMemoryTaskRepository.UpdateTask`: replaces the entry for
`task.ID` when present, `ErrTaskNotFound` otherwise.  The first
component is the repository state after the call. -/
def Store.updateTask (st : Store) (task : Task) :
    Store × Except RepoError Task :=
  match st.tasks.lookup task.id with
  | none => (st, Except.error RepoError.taskNotFound)
  | some _ =>
    ({ st with tasks := mapPut st.tasks task.id task }, Except.ok task)

/-- `InMemoryTaskRepository.DeleteTask`: removes the entry when present,
`ErrTaskNotFound` otherwise. -/
def Store.deleteTask (st : Store) (id : String) :
    Store × Except RepoError Unit :=
  match st.tasks.lookup id with
  | none => (st, Except.error RepoError.taskNotFound)
  | some _ => ({ st with tasks := mapErase st.tasks id }, Except.ok ())

/-- Service-level errors: `service.ErrInvalidTaskID`, the propagated
(wrapped) `repository.ErrTaskNotFound`, and the wrapped `ctx.Err()`
returned when `CreateTask`'s enqueue select observes cancellation.
`errors.Wrap` preserves `errors.Is`, so wrapping is dropped. -/
inductive ServiceError
  | invalidTaskID
  | notFound
  | ctxCancelled
deriving DecidableEq

/-- `TaskService.GetTask`: `strconv.ParseInt(id, 10, 64)` first; on
parse failure `ErrInvalidTaskID` without consulting the repository,
otherwise the repository result (wrapped error preserved). -/
def serviceGetTask (st : Store) (id : String) : Except ServiceError Task :=
  match parseInt64 id with
  | none => Except.error ServiceError.invalidTaskID
  | some _ =>
    match st.getTask id with
    | Except.error RepoError.taskNotFound => Except.error ServiceError.notFound
    | Except.ok t => Except.ok t

/-- `TaskService.DeleteTask`: same id validation, then the repository
delete.  The first component is the repository state after the call. -/
def serviceDeleteTask (st : Store) (id : String) :
    Store × Except ServiceError Unit :=
  match parseInt64 id with
  | none => (st, Except.error ServiceError.invalidTaskID)
  | some _ =>
    match st.deleteTask id with
    | (st1, Except.error RepoError.taskNotFound) =>
      (st1, Except.error ServiceError.notFound)
    | (st1, Except.ok _) => (st1, Except.ok ())

/-- Resolution of `TaskService.CreateTask`'s enqueue select: the send
on `taskQueue` won (task enqueued), `ctx.Done()` won (error returned,
nothing enqueued), or neither was immediately ready and the `default`
branch fell back to a blocking send that eventually delivered the
task. -/
inductive EnqueueOutcome
  | enqueued
  | ctxCancelled
  | blockedThenEnqueued
deriving DecidableEq

/-- `TaskService.CreateTask`: builds the task via `model.NewTask`,
persists it via `Store.createTask`, and only then runs the enqueue
select, whose nondeterministic resolution is the `outcome` argument.
Returns the repository state, the queue contents, the new model
counter, and the Go return value. -/
def serviceCreateTask (st : Store) (queue : List Task) (counter : Nat)
    (title description : String) (now : Int) (outcome : EnqueueOutcome) :
    Store × List Task × Nat × Except ServiceError Task :=
  let g := NewTask title description counter now
  let c := st.createTask g.1
  match outcome with
  | EnqueueOutcome.enqueued =>
    (c.1, queue ++ [c.2], g.2, Except.ok c.2)
  | EnqueueOutcome.ctxCancelled =>
    (c.1, queue, g.2, Except.error ServiceError.ctxCancelled)
  | EnqueueOutcome.blockedThenEnqueued =>
    (c.1, queue ++ [c.2], g.2, Except.ok c.2)

/-- Step 4 of the worker loop: `UpdateStatus(StatusCompleted)` followed
by setting `Result` to the success string. -/
def completeTask (t : Task) (now : Int) : Task :=
  { t.updateStatus TaskStatus.completed now with
    result := "Task completed successfully" }

/-- The sequential body of one worker iteration that has already
dequeued `task`: step 2 (`UpdateStatus(Processing)` + persist; on
persist failure the task is abandoned), the delay (not interrupted in
this run), then step 4 (`completeTask` + persist).  `some` carries the
fully persisted completed task. -/
def processTask (st : Store) (task : Task) (t1 t2 : Int) :
    Store × Option Task :=
  let tp := task.updateStatus TaskStatus.processing t1
  let u1 := st.updateTask tp
  match u1.2 with
  | Except.error _ => (u1.1, none)
  | Except.ok _ =>
    let tc := completeTask tp t2
    let u2 := u1.1.updateTask tc
    match u2.2 with
    | Except.error _ => (u2.1, none)
    | Except.ok _ => (u2.1, some tc)

/-- Worker control point: at the top-of-loop select (`idle`); committed
to a dequeued task but not yet persisted as processing (`step2`);
waiting in the simulated-delay select (`delayWait`); or returned from
the goroutine (`exited`). -/
inductive WPhase
  | idle
  | step2 (task : Task)
  | delayWait (task : Task)
  | exited
deriving DecidableEq

/-- State of one worker goroutine together with its environment: the
buffered `taskQueue` contents, whether the stop signal (shutdown
channel close or context cancellation) has been delivered, and the
shared repository. -/
structure WState where
  queue : List Task
  stopped : Bool
  phase : WPhase
  store : Store
deriving DecidableEq

/-- Small-step semantics of the worker loop of
`TaskService.startWorkers`, interleaved with the environment actions
that deliver the stop signal and enqueue tasks.  Go's `select` with
several ready communications chooses among them nondeterministically,
so a delivered stop signal never *disables* the dequeue branch: the
`dequeue` step carries no `stopped` guard.  Once a task is dequeued
(`step2`), the loop body runs without further stop checks until the
delay select (`delayWait`); step 4 (`runStep4`) contains no stop check
at all. -/
inductive WStep : WState → WState → Prop
  | deliverStop (s : WState) :
      s.stopped = false → WStep s { s with stopped := true }
  | enqueue (s : WState) (t : Task) :
      WStep s { s with queue := s.queue ++ [t] }
  | observeStopIdle (s : WState) :
      s.phase = WPhase.idle → s.stopped = true →
      WStep s { s with phase := WPhase.exited }
  | dequeue (s : WState) (t : Task) (rest : List Task) :
      s.phase = WPhase.idle → s.queue = t :: rest →
      WStep s { s with phase := WPhase.step2 t, queue := rest }
  | runStep2 (s : WState) (t : Task) (now : Int) :
      s.phase = WPhase.step2 t →
      WStep s { s with
        phase :=
          match (s.store.updateTask (t.updateStatus TaskStatus.processing now)).2 with
          | Except.ok _ => WPhase.delayWait (t.updateStatus TaskStatus.processing now)
          | Except.error _ => WPhase.idle
        store := (s.store.updateTask (t.updateStatus TaskStatus.processing now)).1 }
  | observeStopDelay (s : WState) (t : Task) :
      s.phase = WPhase.delayWait t → s.stopped = true →
      WStep s { s with phase := WPhase.exited }
  | runStep4 (s : WState) (t : Task) (now : Int) :
      s.phase = WPhase.delayWait t →
      WStep s { s with
        phase := WPhase.idle
        store := (s.store.updateTask (completeTask t now)).1 }

/-- Little-endian value of a decimal digit list (proof-side inverse of
`natToRevDigits`). -/
def digitsVal : List Nat → Nat
  | [] => 0
  | d :: ds => d + 10 * digitsVal ds

/-- Store operations a client may interleave: `CreateTask` and
`DeleteTask` (the two operations that touch id assignment and id
retirement). -/
inductive StoreOp
  | create (task : Task)
  | del (id : String)

/-- Run one store operation, returning the assigned id when the
operation was a create. -/
def execOp (st : Store) : StoreOp → Store × Option String
  | StoreOp.create task =>
    let c := st.createTask task
    (c.1, some c.2.id)
  | StoreOp.del id => ((st.deleteTask id).1, none)

/-- Run a sequence of store operations from `st`, collecting the ids
assigned by the creates, in order. -/
def execOps (st : Store) : List StoreOp → Store × List String
  | [] => (st, [])
  | op :: ops =>
    let r := execOp st op
    let rest := execOps r.1 ops
    (rest.1, r.2.toList ++ rest.2)

/-- Number of creates in an operation sequence. -/
def countCreates : List StoreOp → Nat
  | [] => 0
  | StoreOp.create _ :: ops => countCreates ops + 1
  | StoreOp.del _ :: ops => countCreates ops

/-- Concrete pending task used by witnesses and counterexamples. -/
def sampleTask : Task :=
  { id := "1", title := "T", description := "D",
    status := TaskStatus.pending, createdAt := 0 }

/-- Concrete task already carrying a start stamp (`StartedAt = 5`). -/
def sampleStartedTask : Task :=
  { id := "1", title := "T", description := "D",
    status := TaskStatus.processing, createdAt := 0, startedAt := some 5 }

/-- Concrete task frozen at completion
(`StartedAt = 2`, `CompletedAt = 7`). -/
def sampleDoneTask : Task :=
  { id := "1", title := "T", description := "D",
    status := TaskStatus.completed, createdAt := 0,
    startedAt := some 2, completedAt := some 7 }

/-- Concrete repository holding `sampleTask` under id `"1"`. -/
def sampleStore : Store := { tasks := [("1", sampleTask)], nextID := 2 }

/-- Concrete operation sequence: create, delete the first id, create
again. -/
def sampleOps : List StoreOp :=
  [StoreOp.create sampleTask, StoreOp.del "1", StoreOp.create sampleTask]

/-- Worker trace, state 0: idle worker, empty queue, stop not yet
delivered. -/
def wsInit : WState :=
  { queue := [], stopped := false, phase := WPhase.idle, store := sampleStore }

/-- Worker trace, state 1: `sampleTask` enqueued by `CreateTask`. -/
def wsQueued : WState :=
  { queue := [sampleTask], stopped := false, phase := WPhase.idle,
    store := sampleStore }

/-- Worker trace, state 2: the stop signal has been delivered while the
task still sits in the queue. -/
def wsStopped : WState :=
  { queue := [sampleTask], stopped := true, phase := WPhase.idle,
    store := sampleStore }

/-- Worker trace, state 3: the select chose the queue over the closed
shutdown channel — the worker has dequeued after the stop delivery. -/
def wsDequeued : WState :=
  { queue := [], stopped := true, phase := WPhase.step2 sampleTask,
    store := sampleStore }

/-- Worker trace, state 4: step 2 ran after the stop delivery — the
task is `Processing` and persisted. -/
def wsProcessing : WState :=
  { queue := [], stopped := true,
    phase := WPhase.delayWait (sampleTask.updateStatus TaskStatus.processing 7),
    store := (sampleStore.updateTask
      (sampleTask.updateStatus TaskStatus.processing 7)).1 }

/-- Worker state with the goroutine already returned. -/
def wsExited : WState :=
  { queue := [], stopped := true, phase := WPhase.exited,
    store := sampleStore }

/-- State a worker reaches by running step 4 on `t` at time `now` from
state `s`: back at the top of the loop, with the completed task
persisted (both effects applied together — step 4 has no stop check
between them). -/
def step4State (s : WState) (t : Task) (now : Int) : WState :=
  { s with phase := WPhase.idle,
           store := (s.store.updateTask (completeTask t now)).1 }

/-! Helper lemmas about the map model. -/

theorem lookup_filterOut_self (m : List (String × Task)) (k : String) :
    (m.filter (fun p => !(p.1 == k))).lookup k = none := by
  induction m with
  | nil => rfl
  | cons p rest ih =>
    by_cases h : p.1 = k
    · have hb : (p.1 == k) = true := beq_iff_eq.2 h
      simp only [List.filter, hb, Bool.not_true]
      exact ih
    · have hb : (p.1 == k) = false := beq_eq_false_iff_ne.2 h
      have hk : (k == p.1) = false :=
        beq_eq_false_iff_ne.2 (fun e => h e.symm)
      simp only [List.filter, hb, Bool.not_false, List.lookup, hk]
      exact ih

theorem lookup_filterOut_ne (m : List (String × Task)) (k k' : String)
    (h : k' ≠ k) :
    (m.filter (fun p => !(p.1 == k))).lookup k' = m.lookup k' := by
  induction m with
  | nil => rfl
  | cons p rest ih =>
    by_cases hp : p.1 = k
    · have hb : (p.1 == k) = true := beq_iff_eq.2 hp
      have hk' : (k' == p.1) = false :=
        beq_eq_false_iff_ne.2 (fun e => h (e.trans hp))
      simp only [List.filter, hb, Bool.not_true, List.lookup, hk', ih]
    · have hb : (p.1 == k) = false := beq_eq_false_iff_ne.2 hp
      by_cases hk : k' = p.1
      · have hkb : (k' == p.1) = true := beq_iff_eq.2 hk
        simp only [List.filter, hb, Bool.not_false, List.lookup, hkb]
      · have hkb : (k' == p.1) = false := beq_eq_false_iff_ne.2 hk
        simp only [List.filter, hb, Bool.not_false, List.lookup, hkb, ih]

theorem lookup_mapPut_self (m : List (String × Task)) (k : String) (v : Task) :
    (mapPut m k v).lookup k = some v := by
  simp only [mapPut, List.lookup, beq_self_eq_true]

theorem lookup_mapPut_ne (m : List (String × Task)) (k k' : String) (v : Task)
    (h : k' ≠ k) :
    (mapPut m k v).lookup k' = m.lookup k' := by
  have hk' : (k' == k) = false := beq_eq_false_iff_ne.2 h
  simp only [mapPut, List.lookup, hk', lookup_filterOut_ne m k k' h]

theorem lookup_mapErase_self (m : List (String × Task)) (k : String) :
    (mapErase m k).lookup k = none :=
  lookup_filterOut_self m k

/-! Helper lemmas about `Task.updateStatus` and `completeTask`. -/

theorem updateStatus_processing_fields (t : Task) (now : Int) :
    (t.updateStatus TaskStatus.processing now).status = TaskStatus.processing ∧
    (t.updateStatus TaskStatus.processing now).startedAt = some now ∧
    (t.updateStatus TaskStatus.processing now).completedAt = t.completedAt ∧
    (t.updateStatus TaskStatus.processing now).id = t.id ∧
    (t.updateStatus TaskStatus.processing now).result = t.result := by
  unfold Task.updateStatus
  refine ⟨rfl, rfl, rfl, rfl, rfl⟩

theorem updateStatus_completed_fields (t : Task) (now : Int) :
    (t.updateStatus TaskStatus.completed now).status = TaskStatus.completed ∧
    (t.updateStatus TaskStatus.completed now).startedAt = t.startedAt ∧
    (t.updateStatus TaskStatus.completed now).completedAt = some now ∧
    (t.updateStatus TaskStatus.completed now).id = t.id ∧
    (t.updateStatus TaskStatus.completed now).result = t.result := by
  unfold Task.updateStatus
  cases t.startedAt <;> exact ⟨rfl, rfl, rfl, rfl, rfl⟩

theorem completeTask_fields (t : Task) (now : Int) :
    (completeTask t now).status = TaskStatus.completed ∧
    (completeTask t now).startedAt = t.startedAt ∧
    (completeTask t now).completedAt = some now ∧
    (completeTask t now).id = t.id ∧
    (completeTask t now).result = "Task completed successfully" := by
  unfold completeTask
  rcases updateStatus_completed_fields t now with ⟨h1, h2, h3, h4, _⟩
  exact ⟨h1, h2, h3, h4, rfl⟩

/-! Helper lemmas about decimal rendering and parsing, used to settle
the id-uniqueness claim. -/

theorem digitsVal_revDigitsFuel (fuel : Nat) :
    ∀ n, n ≤ fuel → digitsVal (natToRevDigitsFuel fuel n) = n := by
  induction fuel with
  | zero =>
    intro n hn
    interval_cases n
    rfl
  | succ f ih =>
    intro n hn
    cases n with
    | zero => rfl
    | succ m =>
      have hdiv : (m + 1) / 10 ≤ f := by
        have := Nat.div_lt_self (Nat.succ_pos m) (by norm_num : 1 < 10)
        omega
      simp only [natToRevDigitsFuel, digitsVal]
      rw [ih _ hdiv]
      omega

theorem revDigitsFuel_lt_ten (fuel : Nat) :
    ∀ n d, d ∈ natToRevDigitsFuel fuel n → d < 10 := by
  induction fuel with
  | zero =>
    intro n d hd
    simp [natToRevDigitsFuel] at hd
  | succ f ih =>
    intro n d hd
    cases n with
    | zero => simp [natToRevDigitsFuel] at hd
    | succ m =>
      simp only [natToRevDigitsFuel, List.mem_cons] at hd
      rcases hd with h | h
      · subst h
        exact Nat.mod_lt _ (by norm_num)
      · exact ih _ _ h

theorem natToRevDigits_succ (m : Nat) :
    natToRevDigits (m + 1) =
      ((m + 1) % 10) :: natToRevDigitsFuel m ((m + 1) / 10) := rfl

theorem digitsVal_natToRevDigits (n : Nat) :
    digitsVal (natToRevDigits n) = n :=
  digitsVal_revDigitsFuel n n (Nat.le_refl n)

theorem natToRevDigits_lt_ten (n d : Nat) (h : d ∈ natToRevDigits n) :
    d < 10 :=
  revDigitsFuel_lt_ten n n d h

theorem digitVal_decChar : ∀ d, d < 10 → digitVal (decChar d) = some d := by
  decide

theorem decChar_ne_sign : ∀ d, d < 10 →
    decChar d ≠ '+' ∧ decChar d ≠ '-' := by
  decide

theorem parseDigitsAux_digits (ds : List Nat) :
    ∀ acc, (∀ d ∈ ds, d < 10) →
      parseDigitsAux acc (ds.map decChar) =
        some (ds.foldl (fun a d => a * 10 + d) acc) := by
  induction ds with
  | nil =>
    intro acc _
    rfl
  | cons d ds ih =>
    intro acc hall
    have hd : d < 10 := hall d (List.mem_cons_self d ds)
    simp only [List.map_cons, parseDigitsAux, digitVal_decChar d hd,
      List.foldl_cons]
    exact ih _ (fun x hx => hall x (List.mem_cons_of_mem d hx))

theorem foldl_reverse_digitsVal (ds : List Nat) :
    ∀ acc, (ds.reverse).foldl (fun a d => a * 10 + d) acc =
      acc * 10 ^ ds.length + digitsVal ds := by
  induction ds with
  | nil =>
    intro acc
    simp [digitsVal]
  | cons d ds ih =>
    intro acc
    simp only [List.reverse_cons, List.foldl_append, List.foldl_cons,
      List.foldl_nil, ih, digitsVal, List.length_cons]
    ring

theorem parse_natStr (n : Nat) (h1 : 1 ≤ n) :
    parseDigits (natStr n).data = some n := by
  cases n with
  | zero => exact absurd h1 (by decide)
  | succ m =>
    have hall : ∀ d ∈ (natToRevDigits (m + 1)).reverse, d < 10 :=
      fun d hd =>
        revDigitsFuel_lt_ten (m + 1) (m + 1) d (List.mem_reverse.1 hd)
    have hfold := parseDigitsAux_digits ((natToRevDigits (m + 1)).reverse) 0 hall
    have hval : ((natToRevDigits (m + 1)).reverse).foldl
        (fun a d => a * 10 + d) 0 = m + 1 := by
      rw [foldl_reverse_digitsVal, digitsVal_natToRevDigits]
      simp
    have hdata : (natStr (m + 1)).data =
        ((natToRevDigits (m + 1)).reverse).map decChar := rfl
    rw [hdata]
    cases hrev : (natToRevDigits (m + 1)).reverse with
    | nil =>
      have hnil : natToRevDigits (m + 1) = [] :=
        List.reverse_eq_nil_iff.1 hrev
      rw [natToRevDigits_succ] at hnil
      exact absurd hnil (List.cons_ne_nil _ _)
    | cons x xs =>
      rw [hrev] at hfold hval
      simp only [List.map_cons] at hfold ⊢
      rw [parseDigits, hfold, hval]

theorem parseInt64_eq (s : String) (c : Char) (cs : List Char)
    (h : s.data = c :: cs) :
    parseInt64 s =
      (if c = '+' then
        (parseDigits cs).bind (fun n =>
          if n ≤ 2 ^ 63 - 1 then some (n : Int) else none)
      else if c = '-' then
        (parseDigits cs).bind (fun n =>
          if n ≤ 2 ^ 63 then some (-(n : Int)) else none)
      else
        (parseDigits (c :: cs)).bind (fun n =>
          if n ≤ 2 ^ 63 - 1 then some (n : Int) else none)) := by
  rw [parseInt64, h]

theorem parseInt64_natStr (n : Nat) (h1 : 1 ≤ n) (h2 : n ≤ 2 ^ 63 - 1) :
    parseInt64 (natStr n) = some (n : Int) := by
  cases n with
  | zero => exact absurd h1 (by decide)
  | succ m =>
    cases hrev : (natToRevDigits (m + 1)).reverse with
    | nil =>
      have hnil : natToRevDigits (m + 1) = [] :=
        List.reverse_eq_nil_iff.1 hrev
      rw [natToRevDigits_succ] at hnil
      exact absurd hnil (List.cons_ne_nil _ _)
    | cons x xs =>
      have hx10 : x < 10 := by
        refine natToRevDigits_lt_ten (m + 1) x (List.mem_reverse.1 ?_)
        rw [hrev]
        exact List.mem_cons_self x xs
      have hdata : (natStr (m + 1)).data = decChar x :: xs.map decChar := by
        rw [show (natStr (m + 1)).data =
          ((natToRevDigits (m + 1)).reverse).map decChar from rfl, hrev,
          List.map_cons]
      have hparse : parseDigits (decChar x :: xs.map decChar) = some (m + 1) := by
        rw [← hdata]
        exact parse_natStr (m + 1) (Nat.succ_le_succ (Nat.zero_le m))
      rw [parseInt64_eq (natStr (m + 1)) (decChar x) (xs.map decChar) hdata]
      rw [if_neg (decChar_ne_sign x hx10).1, if_neg (decChar_ne_sign x hx10).2]
      rw [hparse]
      simp [h2]
      omega

theorem parseInt64_formatInt (i : Int) (h1 : 1 ≤ i) (h2 : i ≤ 2 ^ 63 - 1) :
    parseInt64 (formatInt i) = some i := by
  have hnn : ¬ i < 0 := by omega
  rw [formatInt, if_neg hnn]
  have h1' : 1 ≤ i.toNat := by omega
  have h2' : i.toNat ≤ 2 ^ 63 - 1 := by omega
  rw [parseInt64_natStr i.toNat h1' h2', Int.toNat_of_nonneg (by omega)]

/-! Helper lemmas about operation sequences on the store. -/

theorem wrap64_eq_self (x : Int) (h1 : -(2 ^ 63) ≤ x) (h2 : x < 2 ^ 63) :
    wrap64 x = x := by
  rw [wrap64, Int.emod_eq_of_lt (by omega) (by omega)]
  omega

theorem execOps_no_creates (ops : List StoreOp) :
    ∀ st, countCreates ops = 0 → (execOps st ops).2 = [] := by
  induction ops with
  | nil =>
    intro st _
    rfl
  | cons op ops ih =>
    intro st h
    cases op with
    | create t => simp [countCreates] at h
    | del id =>
      simp only [countCreates] at h
      simp only [execOps, execOp, Option.toList, List.nil_append]
      exact ih _ h

theorem execOps_ids (ops : List StoreOp) :
    ∀ st : Store, 1 ≤ st.nextID →
      st.nextID + countCreates ops ≤ 2 ^ 63 →
      (execOps st ops).2 =
        (List.range (countCreates ops)).map
          (fun i : Nat => formatInt (st.nextID + (i : Int))) := by
  induction ops with
  | nil =>
    intro st _ _
    rfl
  | cons op ops ih =>
    intro st hge hle
    cases op with
    | del id =>
      simp only [countCreates] at hle ⊢
      simp only [execOps, execOp, Option.toList, List.nil_append]
      have hnid : ((st.deleteTask id).1).nextID = st.nextID := by
        rw [Store.deleteTask]
        cases st.tasks.lookup id <;> rfl
      rw [ih _ (by rw [hnid]; exact hge) (by rw [hnid]; exact hle), hnid]
    | create task =>
      simp only [countCreates] at hle ⊢
      simp only [execOps, execOp, Option.toList]
      have hnid : ((st.createTask task).1).nextID = wrap64 (st.nextID + 1) :=
        rfl
      rcases Nat.eq_zero_or_pos (countCreates ops) with h0 | hpos
      · rw [execOps_no_creates ops _ h0, h0]
        have hhead : (st.createTask task).2.id = formatInt st.nextID := rfl
        simp [List.range_succ, hhead]
      · have hwrap : wrap64 (st.nextID + 1) = st.nextID + 1 := by
          refine wrap64_eq_self _ (by omega) ?_
          push_cast at hle
          omega
        have ihres := ih ((st.createTask task).1)
          (by rw [hnid, hwrap]; omega)
          (by rw [hnid, hwrap]; push_cast at hle ⊢; omega)
        rw [ihres, hnid, hwrap, List.range_succ_eq_map]
        simp only [List.map_cons, List.map_map, List.singleton_append,
          Nat.cast_zero, add_zero]
        refine congrArg₂ List.cons rfl ?_
        refine List.map_congr_left ?_
        intro i _
        simp only [Function.comp_apply]
        congr 1
        push_cast
        ring

/-! Claim theorems. -/

/-- C1, counterexample: `UpdateStatus(Processing)` carries no idempotent
guard — on a task whose `StartedAt` is already `5`, a second transition
to `Processing` at time `10` resets `StartedAt` to `10` instead of
preserving `5`. -/
theorem updateStatus_processing_resets_cex :
    sampleStartedTask.startedAt = some 5 ∧
    (sampleStartedTask.updateStatus TaskStatus.processing 10).startedAt =
      some 10 ∧
    (some (10 : Int) ≠ some (5 : Int)) :=
  ⟨rfl, rfl, by decide⟩

/-- C1, amended: transitioning a task to `Processing` via `UpdateStatus`
always sets `started_at` to the current time, unconditionally — a
re-entry into `Processing` resets the start time to the time of the
re-entry rather than preserving the original value. -/
theorem updateStatus_processing_sets_startedAt (t : Task) (now : Int) :
    (t.updateStatus TaskStatus.processing now).startedAt = some now ∧
    (t.updateStatus TaskStatus.processing now).status =
      TaskStatus.processing :=
  ⟨(updateStatus_processing_fields t now).2.1,
    (updateStatus_processing_fields t now).1⟩

/-- C5: `Duration()` is zero when `started_at` is absent; when both
`started_at = s` and `completed_at = c` are set it equals exactly
`c - s`, independently of the read time `now`, and is nonnegative
whenever `completed_at` is not earlier than `started_at`. -/
theorem duration_spec (t : Task) (now now' : Int) :
    (t.startedAt = none → t.duration now = 0) ∧
    (∀ s c, t.startedAt = some s → t.completedAt = some c →
      t.duration now = c - s ∧
      t.duration now = t.duration now' ∧
      (s ≤ c → 0 ≤ t.duration now)) := by
  constructor
  · intro h
    simp [Task.duration, h]
  · intro s c hs hc
    simp only [Task.duration, hs, hc, Option.getD_some]
    refine ⟨by trivial, by trivial, ?_⟩
    intro hle
    omega

/-- C5 witness: the theorem instantiated at `sampleDoneTask`
(`started_at = 2`, `completed_at = 7`) and read times `100`, `200`. -/
theorem duration_spec_witness :
    sampleDoneTask.duration 100 = 7 - 2 ∧
    sampleDoneTask.duration 100 = sampleDoneTask.duration 200 ∧
    ((2 : Int) ≤ 7 → 0 ≤ sampleDoneTask.duration 100) :=
  (duration_spec sampleDoneTask 100 200).2 2 7 rfl rfl

/-- C6: `UpdateTask` replaces the stored entry for `task.id` when the
id is present (returning the updated task, leaving every other key and
the id counter untouched), and when the id is absent it returns
`ErrTaskNotFound` with the repository state completely unchanged — an
update can never insert a task that was not already stored. -/
theorem updateTask_spec (st : Store) (task : Task) :
    (∀ t0, st.tasks.lookup task.id = some t0 →
      (st.updateTask task).2 = Except.ok task ∧
      (st.updateTask task).1.tasks.lookup task.id = some task ∧
      (∀ k, k ≠ task.id →
        (st.updateTask task).1.tasks.lookup k = st.tasks.lookup k) ∧
      (st.updateTask task).1.nextID = st.nextID) ∧
    (st.tasks.lookup task.id = none →
      st.updateTask task = (st, Except.error RepoError.taskNotFound)) := by
  constructor
  · intro t0 h
    simp only [Store.updateTask, h]
    exact ⟨by trivial, lookup_mapPut_self _ _ _,
      fun k hk => lookup_mapPut_ne _ _ _ _ hk, by trivial⟩
  · intro h
    simp only [Store.updateTask, h]

/-- C6 witness: the present-id half of the theorem instantiated at
`sampleStore`, updating the entry `"1"` to `sampleDoneTask`. -/
theorem updateTask_spec_witness :
    (sampleStore.updateTask { sampleDoneTask with id := "1" }).2 =
      Except.ok { sampleDoneTask with id := "1" } ∧
    (sampleStore.updateTask { sampleDoneTask with id := "1" }).1.tasks.lookup
      "1" = some { sampleDoneTask with id := "1" } :=
  ⟨((updateTask_spec sampleStore { sampleDoneTask with id := "1" }).1
      sampleTask rfl).1,
    ((updateTask_spec sampleStore { sampleDoneTask with id := "1" }).1
      sampleTask rfl).2.1⟩

/-- C7: whenever `DeleteTask` succeeds, an immediately following
`GetTask` with the same id returns `ErrTaskNotFound`, and the entry is
gone from the map entirely — no tombstone remains. -/
theorem delete_then_get_notFound (st : Store) (id : String)
    (h : (st.deleteTask id).2 = Except.ok ()) :
    (st.deleteTask id).1.getTask id = Except.error RepoError.taskNotFound ∧
    (st.deleteTask id).1.tasks.lookup id = none := by
  cases hL : st.tasks.lookup id with
  | none =>
    rw [Store.deleteTask, hL] at h
    exact absurd h (by simp)
  | some t =>
    rw [Store.deleteTask, hL]
    have hgone : (mapErase st.tasks id).lookup id = none :=
      lookup_mapErase_self st.tasks id
    constructor
    · rw [Store.getTask]
      simp only [hgone]
    · exact hgone

/-- C7 witness: the theorem instantiated at `sampleStore` and id `"1"`,
whose delete succeeds. -/
theorem delete_then_get_notFound_witness :
    (sampleStore.deleteTask "1").1.getTask "1" =
      Except.error RepoError.taskNotFound ∧
    (sampleStore.deleteTask "1").1.tasks.lookup "1" = none :=
  delete_then_get_notFound sampleStore "1" rfl

/-- C3: for any id string rejected by `strconv.ParseInt(id, 10, 64)`,
`Service.GetTask` and `Service.DeleteTask` return `ErrInvalidTaskID` —
never `ErrTaskNotFound` — whatever the repository contains, and the
repository is untouched (the delete returns the state unchanged; the
result does not depend on `st` at all, as the statement quantifies over
every store). -/
theorem invalid_id_never_notFound (st : Store) (id : String)
    (h : parseInt64 id = none) :
    serviceGetTask st id = Except.error ServiceError.invalidTaskID ∧
    serviceGetTask st id ≠ Except.error ServiceError.notFound ∧
    serviceDeleteTask st id = (st, Except.error ServiceError.invalidTaskID) := by
  refine ⟨?_, ?_, ?_⟩
  · simp only [serviceGetTask, h]
  · simp only [serviceGetTask, h]
    intro hc
    exact absurd (Except.error.inj hc) (by simp)
  · simp only [serviceDeleteTask, h]

/-- C3 witness: the theorem instantiated at the non-numeric id `"abc"`
and the nonempty `sampleStore`. -/
theorem invalid_id_never_notFound_witness :
    serviceGetTask sampleStore "abc" =
      Except.error ServiceError.invalidTaskID ∧
    serviceGetTask sampleStore "abc" ≠
      Except.error ServiceError.notFound ∧
    serviceDeleteTask sampleStore "abc" =
      (sampleStore, Except.error ServiceError.invalidTaskID) :=
  invalid_id_never_notFound sampleStore "abc" rfl

/-- C4: whenever the worker body runs a task through step 4 and both
persists succeed, the resulting task has status `Completed`, result
exactly `"Task completed successfully"`, `started_at` stamped by step 2
and `completed_at` stamped by step 4, and the repository maps the
task's id to exactly that task. -/
theorem processTask_completes (st : Store) (task : Task) (t1 t2 : Int)
    (st' : Store) (t' : Task)
    (h : processTask st task t1 t2 = (st', some t')) :
    t'.status = TaskStatus.completed ∧
    t'.result = "Task completed successfully" ∧
    t'.startedAt = some t1 ∧
    t'.completedAt = some t2 ∧
    st'.tasks.lookup t'.id = some t' := by
  simp only [processTask] at h
  rcases h1 : (st.updateTask (task.updateStatus TaskStatus.processing t1)).2
    with e1 | v1
  · rw [h1] at h
    simp at h
  · rw [h1] at h
    rcases h2 : ((st.updateTask
        (task.updateStatus TaskStatus.processing t1)).1.updateTask
        (completeTask (task.updateStatus TaskStatus.processing t1) t2)).2
      with e2 | v2
    · rw [h2] at h
      simp at h
    · rw [h2] at h
      simp only [Prod.mk.injEq, Option.some.injEq] at h
      obtain ⟨hst, ht⟩ := h
      subst hst
      subst ht
      set tp := task.updateStatus TaskStatus.processing t1 with htp
      set st1 := (st.updateTask tp).1 with hst1
      rcases completeTask_fields tp t2 with ⟨f1, f2, f3, f4, f5⟩
      refine ⟨f1, f5, ?_, f3, ?_⟩
      · rw [f2, (updateStatus_processing_fields task t1).2.1]
      · rcases hL : st1.tasks.lookup (completeTask tp t2).id with _ | t0
        · rw [Store.updateTask, hL] at h2
          exact absurd h2 (by simp)
        · rw [Store.updateTask, hL]
          exact lookup_mapPut_self _ _ _

/-- C4 witness: running `sampleTask` through the worker body over
`sampleStore` (both persists succeed), with `t1 = 3`, `t2 = 8`. -/
theorem processTask_completes_witness :
    (completeTask (sampleTask.updateStatus TaskStatus.processing 3) 8).status =
      TaskStatus.completed ∧
    (completeTask (sampleTask.updateStatus TaskStatus.processing 3) 8).result =
      "Task completed successfully" ∧
    (completeTask (sampleTask.updateStatus TaskStatus.processing 3) 8).startedAt =
      some 3 ∧
    (completeTask (sampleTask.updateStatus TaskStatus.processing 3) 8).completedAt =
      some 8 ∧
    (processTask sampleStore sampleTask 3 8).1.tasks.lookup
      (completeTask (sampleTask.updateStatus TaskStatus.processing 3) 8).id =
      some (completeTask (sampleTask.updateStatus TaskStatus.processing 3) 8) :=
  processTask_completes sampleStore sampleTask 3 8
    (processTask sampleStore sampleTask 3 8).1
    (completeTask (sampleTask.updateStatus TaskStatus.processing 3) 8) rfl

/-- C9: `Service.CreateTask` persists the new task before the enqueue
select, so when the select resolves to context cancellation the call
returns an error, nothing is enqueued (the queue is exactly as before,
so no worker can ever dequeue this task), yet the task remains stored
with status `Pending` — there is no rollback. -/
theorem createTask_cancelled_no_rollback (st : Store) (queue : List Task)
    (counter : Nat) (title description : String) (now : Int) :
    (serviceCreateTask st queue counter title description now
        EnqueueOutcome.ctxCancelled).2.2.2 =
      Except.error ServiceError.ctxCancelled ∧
    (serviceCreateTask st queue counter title description now
        EnqueueOutcome.ctxCancelled).2.1 = queue ∧
    (∃ t, (serviceCreateTask st queue counter title description now
        EnqueueOutcome.ctxCancelled).1.getTask (formatInt st.nextID) =
          Except.ok t ∧
      t.status = TaskStatus.pending ∧ t.title = title ∧
      t.description = description) := by
  refine ⟨rfl, rfl, ?_⟩
  refine ⟨{ (NewTask title description counter now).1 with
    id := formatInt st.nextID }, ?_, rfl, rfl, rfl⟩
  simp only [serviceCreateTask, Store.createTask, Store.getNextID,
    Store.getTask]
  rw [lookup_mapPut_self]

/-- C10: `Store.CreateTask` unconditionally overwrites the id carried
by the input task — including the one `model.NewTask` assigned from the
package-level atomic counter — with the store's own next sequential id;
the task is returned with, and stored under, that store-assigned id,
and no other key of the map is affected. -/
theorem createTask_overwrites_id (st : Store) (task : Task)
    (title description : String) (counter : Nat) (now : Int) :
    ((st.createTask task).2).id = formatInt st.nextID ∧
    (∀ id0, (st.createTask { task with id := id0 }).2 =
      (st.createTask task).2) ∧
    (st.createTask task).1.tasks.lookup (formatInt st.nextID) =
      some (st.createTask task).2 ∧
    (∀ k, k ≠ formatInt st.nextID →
      (st.createTask task).1.tasks.lookup k = st.tasks.lookup k) ∧
    (NewTask title description counter now).1.id =
      natStr ((counter + 1) % 2 ^ 64) ∧
    (st.createTask (NewTask title description counter now).1).2.id =
      formatInt st.nextID := by
  refine ⟨rfl, fun id0 => rfl, ?_, ?_, rfl, rfl⟩
  · simp only [Store.createTask, Store.getNextID]
    exact lookup_mapPut_self _ _ _
  · intro k hk
    simp only [Store.createTask, Store.getNextID]
    exact lookup_mapPut_ne _ _ _ _ hk

/-- C10 witness: the theorem instantiated at `sampleStore` (next id
`2`) and `sampleDoneTask`; the key `"1"` is unaffected by the create. -/
theorem createTask_overwrites_id_witness :
    ((sampleStore.createTask sampleDoneTask).2).id = formatInt 2 ∧
    (sampleStore.createTask sampleDoneTask).1.tasks.lookup "1" =
      sampleStore.tasks.lookup "1" :=
  ⟨(createTask_overwrites_id sampleStore sampleDoneTask "T" "D" 0 0).1,
    (createTask_overwrites_id sampleStore sampleDoneTask "T" "D" 0 0).2.2.2.1
      "1" (by decide)⟩

/-- C2: over any interleaving of `CreateTask` and `DeleteTask` (with
fewer creates than the `int64` id space, which a single process cannot
exhaust), the assigned ids are exactly the decimal strings of
`1, 2, …, n` in order — numerically strictly increasing, so each id
exceeds every earlier one, no id is ever assigned twice, and deletes
(which never touch `nextID`) free nothing for reassignment. -/
theorem createTask_ids_monotone (ops : List StoreOp)
    (h : countCreates ops ≤ 2 ^ 63 - 1) :
    (execOps initStore ops).2 =
      (List.range (countCreates ops)).map
        (fun i : Nat => formatInt (1 + (i : Int))) ∧
    List.Pairwise (fun a b => ∀ x y : Int,
      parseInt64 a = some x → parseInt64 b = some y → x < y)
      (execOps initStore ops).2 ∧
    ((execOps initStore ops).2).Nodup := by
  have hids := execOps_ids ops initStore (by rw [show initStore.nextID = 1 from rfl])
    (by rw [show initStore.nextID = 1 from rfl]; push_cast; omega)
  rw [show initStore.nextID = 1 from rfl] at hids
  have hparse : ∀ i : Nat, i ∈ List.range (countCreates ops) →
      parseInt64 (formatInt (1 + (i : Int))) = some (1 + (i : Int)) := by
    intro i hi
    have hlt : i < countCreates ops := List.mem_range.1 hi
    refine parseInt64_formatInt _ (by omega) ?_
    omega
  refine ⟨hids, ?_, ?_⟩
  · rw [hids, List.pairwise_map]
    refine (List.pairwise_lt_range (countCreates ops)).imp_of_mem ?_
    intro a b ha hb hab x y hx hy
    rw [hparse a ha] at hx
    rw [hparse b hb] at hy
    have hxa : x = 1 + (a : Int) := (Option.some.inj hx).symm
    have hyb : y = 1 + (b : Int) := (Option.some.inj hy).symm
    rw [hxa, hyb]
    omega
  · rw [hids]
    refine List.Nodup.map_on ?_ (List.nodup_range _)
    intro a ha b hb hfe
    have ha' := hparse a ha
    have hb' := hparse b hb
    rw [hfe] at ha'
    rw [hb'] at ha'
    have := Option.some.inj ha'
    omega

/-- C2 witness: the theorem instantiated at the concrete sequence
create–delete–create, whose two creates receive distinct ids `"1"` and
`"2"` even though the delete removed id `"1"` in between. -/
theorem createTask_ids_monotone_witness :
    ((execOps initStore sampleOps).2).Nodup :=
  (createTask_ids_monotone sampleOps (by decide)).2.2

/-- C8, counterexample: the stop-signal guarantee does not hold as
stated.  Go's `select` chooses nondeterministically among *ready*
communications, so after the stop signal has been delivered
(`wsQueued → wsStopped`) a worker sitting at the select with a task
already in the queue may still take the queue branch
(`wsStopped → wsDequeued`) and run step 2, transitioning the task to
`Processing` after the stop delivery (`wsDequeued → wsProcessing`). -/
theorem worker_step2_after_stop_cex :
    WStep wsInit wsQueued ∧
    WStep wsQueued wsStopped ∧
    WStep wsStopped wsDequeued ∧
    WStep wsDequeued wsProcessing ∧
    wsStopped.stopped = true ∧
    wsDequeued.phase = WPhase.step2 sampleTask ∧
    wsProcessing.phase =
      WPhase.delayWait (sampleTask.updateStatus TaskStatus.processing 7) ∧
    (sampleTask.updateStatus TaskStatus.processing 7).status =
      TaskStatus.processing := by
  refine ⟨?_, ?_, ?_, ?_, rfl, rfl, rfl, rfl⟩
  · exact WStep.enqueue wsInit sampleTask
  · exact WStep.deliverStop wsQueued rfl
  · exact WStep.dequeue wsStopped sampleTask [] rfl rfl
  · exact WStep.runStep2 wsDequeued sampleTask 7 rfl

/-- C8, amended: once a worker has *observed* the stop signal (taken a
stop branch of a select) and exited its loop, it takes no further loop
step, so it never again begins step 2; and step 4, once reached (the
delay-to-idle transition), applies the completion update and its
persist together in one uninterruptible action.  However, a stop signal
that has merely been *delivered* does not prevent a worker whose select
also has a task ready from dequeuing it and beginning step 2. -/
theorem worker_exit_absorbing_step4_atomic (s s' : WState)
    (h : WStep s s') :
    (s.phase = WPhase.exited → s'.phase = WPhase.exited) ∧
    (∀ t, s.phase = WPhase.delayWait t → s'.phase = WPhase.idle →
      ∃ now, s' = step4State s t now) := by
  cases h with
  | deliverStop hs =>
    refine ⟨fun hp => hp, ?_⟩
    intro t ht hidle
    exact absurd (ht.symm.trans hidle) (by simp)
  | enqueue t =>
    refine ⟨fun hp => hp, ?_⟩
    intro t0 ht hidle
    exact absurd (ht.symm.trans hidle) (by simp)
  | observeStopIdle hp hstop =>
    refine ⟨fun _ => rfl, ?_⟩
    intro t0 ht _
    rw [hp] at ht
    exact absurd ht (by simp)
  | dequeue t rest hp hq =>
    constructor
    · intro hex
      rw [hp] at hex
      exact absurd hex (by simp)
    · intro t0 ht _
      rw [hp] at ht
      exact absurd ht (by simp)
  | runStep2 t now hp =>
    constructor
    · intro hex
      rw [hp] at hex
      exact absurd hex (by simp)
    · intro t0 ht _
      rw [hp] at ht
      exact absurd ht (by simp)
  | observeStopDelay t hp hstop =>
    refine ⟨fun _ => rfl, ?_⟩
    intro t0 ht hidle
    exact absurd hidle (by simp)
  | runStep4 t now hp =>
    constructor
    · intro hex
      rw [hp] at hex
      exact absurd hex (by simp)
    · intro t0 ht _
      rw [hp] at ht
      have heq : t = t0 := by injection ht
      subst heq
      exact ⟨now, rfl⟩

/-- C8 amended-theorem witness: an exited worker stays exited across an
environment enqueue step. -/
theorem worker_exit_absorbing_witness :
    ({ wsExited with queue := wsExited.queue ++ [sampleTask] } : WState).phase =
      WPhase.exited :=
  (worker_exit_absorbing_step4_atomic wsExited
    { wsExited with queue := wsExited.queue ++ [sampleTask] }
    (WStep.enqueue wsExited sampleTask)).1 rfl

end TaskAPI
